import Mathlib

/-!
Verification of the retrieval engine of the book-data-platform repository
(`src/retrieval/engine.py`, with the CLI helper in `src/retrieval/query_similar.py`
and the index builder in `src/retrieval/build_faiss_index.py`).

Model conventions:
* Python text that is sliced and measured (descriptions, snippets) is a
  `List Char`; keys and titles, which are only compared for equality, are
  `String`.
* Counts (`topk`, `max_len`) are natural numbers; FAISS inner-product scores
  are rationals (the exact values never matter to the engine, which only
  forwards them).
* The FAISS index (an external library object) is modelled by the abstract
  collaborator contract the specification gives for it: a size `ntotal`, a
  `search` function returning (score, row-position) pairs, and a
  `reconstruct` function returning a stored vector by row position.
* The sentence-transformers model call inside `_embed_text` is modelled as an
  opaque `embed : String → List ℚ` field; its defensive-normalization tail is
  modelled separately over `ℝ` (`l2norm`, `defensiveNormalize` below).
* `pandas` lookups: `meta.iloc[pos]` is positional list indexing,
  `joined[joined["key"] == key]` followed by `.iloc[0]` is `List.find?`,
  `meta[meta["key"] == key].index[0]` on the default RangeIndex is
  `List.findIdx`, and a NaN/None `description` cell is `Option.none`.
-/

/-- One row of the metadata parquet (`meta`): a key, a title (empty when the
column is missing) and an optional cover id (`none` models NaN/absence). -/
structure MetaRow where
  key : String
  title : String
  cover_i : Option Int
deriving Repr, DecidableEq

/-- One row of the joined parquet (`joined`): a key and an optional
description (`none` models a NaN cell). -/
structure JoinedRow where
  key : String
  description : Option (List Char)
deriving Repr, DecidableEq

/-- The FAISS index as the spec's external collaborator contract: `ntotal`
stored vectors, `search(vector, k)` returning (score, row position) pairs in
the order the index reports, and `reconstruct(pos)` returning the stored
vector at a row position. -/
structure VectorIndex where
  ntotal : ℕ
  search : List ℚ → ℕ → List (ℚ × ℕ)
  reconstruct : ℕ → List ℚ

/-- The loaded `SemanticSearchEngine`: index, metadata table, joined
(content) table, and the text-embedding function `_embed_text`. -/
structure SemanticSearchEngine where
  index : VectorIndex
  meta : List MetaRow
  joined : List JoinedRow
  embed : String → List ℚ

/-- Default row used to give `meta.iloc` a total type; every claim that
touches row resolution assumes (as the spec's alignment invariant does) that
the positions handed to it are in range, so this default is never reached. -/
def mrowDefault : MetaRow := ⟨"", "", none⟩

/-- A result dict of `search_by_text` (has a `cover_i` field). -/
structure TextSearchResult where
  book_id : String
  title : String
  score : ℚ
  snippet : List Char
  cover_i : Option Int
deriving Repr, DecidableEq

/-- A result dict of `search_by_key` (no `cover_i` field). -/
structure KeySearchResult where
  book_id : String
  title : String
  score : ℚ
  snippet : List Char
deriving Repr, DecidableEq

/-- The ellipsis marker `"..."` appended on truncation. -/
def ellipsisMarker : List Char := ['.', '.', '.']

/-- `SemanticSearchEngine._get_snippet`: look up the first joined row whose
key matches; absent key gives `""`; a NaN description is replaced by `""`;
the text is truncated to `max_len` characters and `"..."` is appended exactly
when the text was longer than `max_len`. -/
def SemanticSearchEngine._get_snippet (e : SemanticSearchEngine)
    (key : String) (max_len : ℕ) : List Char :=
  match e.joined.find? (fun r => r.key == key) with
  | none => []
  | some row =>
    let text := row.description.getD []
    text.take max_len ++ (if max_len < text.length then ellipsisMarker else [])

/-- `SemanticSearchEngine.get_snippet`, default max length 180. -/
def SemanticSearchEngine.get_snippet (e : SemanticSearchEngine)
    (book_id : String) (n : ℕ := 180) : List Char :=
  e._get_snippet book_id n

/-- `SemanticSearchEngine.get_description`: full description or `""`. -/
def SemanticSearchEngine.get_description (e : SemanticSearchEngine)
    (key : String) : List Char :=
  match e.joined.find? (fun r => r.key == key) with
  | none => []
  | some row =>
    match row.description with
    | none => []
    | some d => d

/-- Loop body of `search_by_text`: resolve one (score, row position) pair
into a result dict.  `int(cover_i) if cover_i and not pd.isna(cover_i) else
None` maps a missing/NaN cover and the falsy cover `0` to `none`. -/
def mkTextResult (e : SemanticSearchEngine) (p : ℚ × ℕ) : TextSearchResult :=
  let row := e.meta.getD p.2 mrowDefault
  { book_id := row.key
    title := row.title
    score := p.1
    snippet := e._get_snippet row.key 600
    cover_i := match row.cover_i with
      | some c => if c = 0 then none else some c
      | none => none }

/-- `SemanticSearchEngine.search_by_text`: embed the query, ask the index for
`topk` neighbours, and resolve each reported pair in order. -/
def SemanticSearchEngine.search_by_text (e : SemanticSearchEngine)
    (query_text : String) (topk : ℕ) : List TextSearchResult :=
  let query_vector := e.embed query_text
  (e.index.search query_vector topk).map (mkTextResult e)

/-- Loop body of `search_by_key`: resolve one (score, row position) pair,
skipping (`continue`) any row whose key equals the seed key. -/
def mkKeyResult (e : SemanticSearchEngine) (key : String) (p : ℚ × ℕ) :
    Option KeySearchResult :=
  let row := e.meta.getD p.2 mrowDefault
  if row.key == key then none
  else some
    { book_id := row.key
      title := row.title
      score := p.1
      snippet := e._get_snippet row.key 600 }

/-- `SemanticSearchEngine.search_by_key`: raise `ValueError` when the key is
absent from the metadata table; otherwise reconstruct the stored vector at
the first matching row position, search for `topk + 1` neighbours, drop every
row whose key equals the seed key, and truncate to `topk` results. -/
def SemanticSearchEngine.search_by_key (e : SemanticSearchEngine)
    (key : String) (topk : ℕ) : Except String (List KeySearchResult) :=
  if ¬ key ∈ e.meta.map MetaRow.key then
    .error ("Key not found: " ++ key)
  else
    let idx := e.meta.findIdx (fun r => r.key == key)
    let query_vector := e.index.reconstruct idx
    let results := (e.index.search query_vector (topk + 1)).filterMap (mkKeyResult e key)
    .ok (results.take topk)

/-- Replace the embedding function of an engine (all other state equal). -/
def withEmbed (e : SemanticSearchEngine) (f : String → List ℚ) :
    SemanticSearchEngine :=
  { e with embed := f }

/-- Replace the reconstruction function of an engine's index. -/
def withReconstruct (e : SemanticSearchEngine) (g : ℕ → List ℚ) :
    SemanticSearchEngine :=
  { e with index := { e.index with reconstruct := g } }

/-- Python `str.strip()` on both ends (remove leading and trailing
whitespace). -/
def trimWs (l : List Char) : List Char :=
  ((l.dropWhile Char.isWhitespace).reverse.dropWhile Char.isWhitespace).reverse

/-- The CLI helper `snippet` of `query_similar.py`:
`text.replace("\n", " ").strip()`, then truncate to `n` characters and append
`"..."` when the cleaned text was longer than `n`. -/
def snippet (text : List Char) (n : ℕ := 180) : List Char :=
  let t := trimWs (text.map (fun c => if c = '\n' then ' ' else c))
  t.take n ++ (if n < t.length then ellipsisMarker else [])

/-- The snippet transformation in the words of the specification (for
comparison with the code): collapse internal newlines to spaces, trim
surrounding whitespace, then truncate to the max length and append an
ellipsis marker if truncation occurred. -/
def snippet_spec (text : List Char) (max_len : ℕ) : List Char :=
  let collapsed := text.map (fun c => if c = '\n' then ' ' else c)
  let trimmed := trimWs collapsed
  trimmed.take max_len ++ (if max_len < trimmed.length then ellipsisMarker else [])

/-! ### Defensive normalization (`_embed_text` tail, over `ℝ`)

`_embed_text` ends with
`norm = np.linalg.norm(vec); if norm != 0: vec = vec / norm`.
Exact real arithmetic stands in for float32: the claim's "within floating
tolerance" becomes exact equality over `ℝ`. -/

/-- Sum of squares of a vector's entries. -/
def sumSq (v : List ℝ) : ℝ := (v.map (fun x => x * x)).sum

/-- `np.linalg.norm`: the Euclidean (L2) norm. -/
noncomputable def l2norm (v : List ℝ) : ℝ := Real.sqrt (sumSq v)

/-- The engine's defensive normalization: divide by the L2 norm unless the
norm is zero, in which case the vector is returned unchanged. -/
noncomputable def defensiveNormalize (v : List ℝ) : List ℝ :=
  if l2norm v ≠ 0 then v.map (fun x => x / l2norm v) else v

/-! ### The process-wide model cache (`_LOCAL_MODEL_CACHE` / `_get_model`)

`_get_model` does `if name not in _LOCAL_MODEL_CACHE:
_LOCAL_MODEL_CACHE[name] = SentenceTransformer(name)`.  `ModelCache.cache`
models the dict's key set and `loadEvents` records one entry per
`SentenceTransformer(...)` construction. -/

/-- State of the process-wide model cache: the cached identifiers and the
log of model-load events. -/
structure ModelCache where
  cache : List String
  loadEvents : List String
deriving Repr, DecidableEq

/-- The empty cache at process start. -/
def initCache : ModelCache := ⟨[], []⟩

/-- `_get_model` run to completion with no interleaving: check the cache,
and on a miss construct (load) the model and store it. -/
def _get_model (s : ModelCache) (m : String) : ModelCache :=
  if m ∈ s.cache then s
  else { cache := m :: s.cache, loadEvents := s.loadEvents ++ [m] }

/-- A sequential history of engine constructions / first queries, each
calling `_get_model` with its engine's model identifier. -/
def runCalls (ms : List String) : ModelCache := ms.foldl _get_model initCache

/-- A thread inside `_get_model` is before the membership test (`start`),
between a failed membership test and the store (`willLoad`, where the
expensive `SentenceTransformer(...)` call runs), or done (`finished`). -/
inductive Phase where
  | start
  | willLoad
  | finished
deriving Repr, DecidableEq, Inhabited

/-- Shared cache plus the phase of each thread, every thread calling
`_get_model` with the same identifier. -/
structure ConcState where
  cache : List String
  loadEvents : List String
  phases : List Phase
deriving Repr, DecidableEq

/-- One atomic step of thread `t`: the membership test and the
load-then-store are separate atomic actions, as in CPython where the
interpreter can switch threads between the dict lookup and the store (the
model constructor in between releases the GIL for long stretches). -/
def stepThread (m : String) (s : ConcState) (t : ℕ) : ConcState :=
  match s.phases.getD t .finished with
  | .start =>
      if m ∈ s.cache then { s with phases := s.phases.set t .finished }
      else { s with phases := s.phases.set t .willLoad }
  | .willLoad =>
      { cache := m :: s.cache
        loadEvents := s.loadEvents ++ [m]
        phases := s.phases.set t .finished }
  | .finished => s

/-- Run two threads, both calling `_get_model m` on an initially empty
cache, under a given interleaving schedule. -/
def runSched (m : String) (sched : List ℕ) : ConcState :=
  sched.foldl (stepThread m) ⟨[], [], [.start, .start]⟩

/-- Invariant of the sequential model cache: every identifier has been
loaded at most once, and not at all while it is absent from the cache. -/
def CacheInv (s : ModelCache) : Prop :=
  ∀ m, s.loadEvents.count m ≤ 1 ∧ (m ∉ s.cache → s.loadEvents.count m = 0)



/-- Decidable equality for `Except`, so concrete engine runs can be checked
by `decide`. -/
instance {ε α : Type _} [DecidableEq ε] [DecidableEq α] : DecidableEq (Except ε α) :=
  fun a b =>
    match a, b with
    | .error x, .error y =>
      if h : x = y then isTrue (by rw [h]) else isFalse (by simp [h])
    | .ok x, .ok y =>
      if h : x = y then isTrue (by rw [h]) else isFalse (by simp [h])
    | .error _, .ok _ => isFalse (by simp)
    | .ok _, .error _ => isFalse (by simp)

/-! ### Concrete engines used to exercise the theorems -/

/-- A three-row metadata table. -/
def metaT : List MetaRow :=
  [⟨"A", "Book A", some 7⟩, ⟨"B", "Book B", none⟩, ⟨"C", "Book C", some 0⟩]

/-- A content table: a real description for `A`, a NaN description for `B`,
an empty description for `C`. -/
def joinedT : List JoinedRow :=
  [⟨"A", some "Alpha".toList⟩, ⟨"B", none⟩, ⟨"C", some []⟩]

/-- A small engine over three indexed vectors whose index reports positions
0, 1, 2 with descending scores 3, 2, 1. -/
def eT : SemanticSearchEngine :=
  { index :=
      { ntotal := 3
        search := fun _ k => [((3 : ℚ), 0), (2, 1), (1, 2)].take k
        reconstruct := fun i => [(i : ℚ)] }
    meta := metaT
    joined := joinedT
    embed := fun _ => [0] }

/-- An engine whose index never reports row 0 (`"A"`), so a seed search for
`"A"` finds no self row among the `topk + 1` neighbours. -/
def eNS : SemanticSearchEngine :=
  { index :=
      { ntotal := 3
        search := fun _ k => [((2 : ℚ), 1), (1, 2), (0, 1)].take k
        reconstruct := fun i => [(i : ℚ)] }
    meta := metaT
    joined := joinedT
    embed := fun _ => [0] }

/-- An engine whose metadata table holds the key `"A"` at two row positions
(0 and 1). -/
def eDup : SemanticSearchEngine :=
  { index :=
      { ntotal := 3
        search := fun _ k => [((3 : ℚ), 0), (2, 1), (1, 2)].take k
        reconstruct := fun i => [(i : ℚ)] }
    meta := [⟨"A", "Book A", none⟩, ⟨"A", "Book A copy", none⟩, ⟨"B", "Book B", none⟩]
    joined := []
    embed := fun _ => [0] }

/-- What `eDup.search_by_key "A" 2` evaluates to: both duplicate rows are
excluded, leaving fewer than `topk` results. -/
def rsDup : List KeySearchResult := [⟨"B", "Book B", 1, []⟩]

/-- A one-row engine whose single description contains an internal newline. -/
def eC2 : SemanticSearchEngine :=
  { index :=
      { ntotal := 1
        search := fun _ k => [((1 : ℚ), 0)].take k
        reconstruct := fun _ => [0] }
    meta := [⟨"k", "Book K", none⟩]
    joined := [⟨"k", some "a\nb".toList⟩]
    embed := fun _ => [0] }

/-- Any snippet produced with max length `n` has at most `n + 3` characters. -/
theorem _get_snippet_length_le (e : SemanticSearchEngine) (key : String) (n : ℕ) :
    (e._get_snippet key n).length ≤ n + 3 := by
  unfold SemanticSearchEngine._get_snippet
  cases hf : e.joined.find? (fun r => r.key == key) with
  | none => simp
  | some row =>
    simp only [List.length_append]
    have h1 : ((row.description.getD []).take n).length ≤ n := by
      simp [List.length_take]
    split
    · simp [ellipsisMarker]
    · simp

/-- `filterMap` over a list on which `f` never returns `none` keeps the
length. -/
theorem length_filterMap_of_isSome {α β : Type _} (f : α → Option β) :
    ∀ l : List α, (∀ a ∈ l, (f a).isSome) → (l.filterMap f).length = l.length := by
  intro l
  induction l with
  | nil => simp
  | cons a t ih =>
    intro h
    obtain ⟨b, hb⟩ := Option.isSome_iff_exists.mp (h a (by simp))
    simp only [List.filterMap_cons, hb, List.length_cons]
    rw [ih (fun x hx => h x (by simp [hx]))]

/-- `findIdx` never points past a position where the predicate holds. -/
theorem findIdx_le_of_getD {α : Type _} (p : α → Bool) (d : α) :
    ∀ (l : List α) (i : ℕ), i < l.length → p (l.getD i d) = true → l.findIdx p ≤ i := by
  intro l
  induction l with
  | nil => intro i hi; simp at hi
  | cons a t ih =>
    intro i hi hp
    cases i with
    | zero =>
      simp only [List.getD_cons_zero] at hp
      simp [List.findIdx_cons, hp]
    | succ n =>
      by_cases hpa : p a
      · simp [List.findIdx_cons, hpa]
      · have := ih n (by simpa using hi) (by simpa using hp)
        simp only [List.findIdx_cons, Bool.cond_eq_if, if_neg hpa]
        omega

/-- Claim C6: `get_snippet` is total and deterministic: for every key
(present or absent in the Content Table) and every max length `n`, it
returns a string of length at most `n + 3` (totality and determinism are
by construction: it is a pure function into `List Char`); when the key is
absent, or the description is null or empty, it returns the empty string. -/
theorem C6_get_snippet_total (e : SemanticSearchEngine) (key : String) (n : ℕ) :
    (e.get_snippet key n).length ≤ n + 3 ∧
    (e.joined.find? (fun r => r.key == key) = none → e.get_snippet key n = []) ∧
    (∀ row, e.joined.find? (fun r => r.key == key) = some row →
      row.description = none ∨ row.description = some [] → e.get_snippet key n = []) := by
  refine ⟨_get_snippet_length_le e key n, ?_, ?_⟩
  · intro h
    unfold SemanticSearchEngine.get_snippet SemanticSearchEngine._get_snippet
    rw [h]
  · intro row hrow hd
    unfold SemanticSearchEngine.get_snippet SemanticSearchEngine._get_snippet
    rw [hrow]
    rcases hd with hd | hd <;> simp [hd]

theorem C6_witness :
    (eT.get_snippet "B" 4).length ≤ 4 + 3 ∧ eT.get_snippet "B" 4 = [] :=
  ⟨(C6_get_snippet_total eT "B" 4).1,
   (C6_get_snippet_total eT "B" 4).2.2 ⟨"B", none⟩ (by decide) (Or.inl rfl)⟩

/-- Claim C10: every snippet embedded in a `search_by_text` or
`search_by_key` result is produced with the fixed max length 600, hence has
at most 603 characters, while the public `get_snippet` defaults to max
length 180. -/
theorem C10_snippet_lengths (e : SemanticSearchEngine) :
    (∀ q topk r, r ∈ e.search_by_text q topk →
      r.snippet = e._get_snippet r.book_id 600 ∧ r.snippet.length ≤ 603) ∧
    (∀ key topk rs r, e.search_by_key key topk = .ok rs → r ∈ rs →
      r.snippet = e._get_snippet r.book_id 600 ∧ r.snippet.length ≤ 603) ∧
    (∀ key, e.get_snippet key = e._get_snippet key 180) := by
  refine ⟨?_, ?_, fun _ => rfl⟩
  · intro q topk r hr
    unfold SemanticSearchEngine.search_by_text at hr
    obtain ⟨p, hp, rfl⟩ := List.mem_map.mp hr
    exact ⟨rfl, _get_snippet_length_le e _ 600⟩
  · intro key topk rs r hrs hr
    unfold SemanticSearchEngine.search_by_key at hrs
    split at hrs
    · exact absurd hrs (by simp)
    · obtain rfl : _ = rs := by simpa using hrs
      have hr' := List.take_subset _ _ hr
      obtain ⟨p, hp, hfp⟩ := List.mem_filterMap.mp hr'
      simp only [mkKeyResult] at hfp
      split at hfp
      · exact absurd hfp (by simp)
      · obtain rfl : _ = r := by simpa using hfp
        exact ⟨rfl, _get_snippet_length_le e _ 600⟩

theorem C10_witness :
    (⟨"A", "Book A", 3, "Alpha".toList, some 7⟩ : TextSearchResult).snippet.length ≤ 603 ∧
    eT.get_snippet "A" = eT._get_snippet "A" 180 :=
  ⟨((C10_snippet_lengths eT).1 "q" 2 ⟨"A", "Book A", 3, "Alpha".toList, some 7⟩ (by decide)).2,
   (C10_snippet_lengths eT).2.2 "A"⟩

/-- Claim C2, amended: given a key present in the Content Table with a
non-empty description, the engine's keyed snippet truncates the raw
description to the max length and appends the ellipsis marker exactly when
the description was longer; it does not collapse newlines or trim
whitespace (a short description is returned verbatim).  The collapse-trim
behaviour described by the spec is the CLI helper `snippet`, which matches
the spec's wording exactly. -/
theorem C2_snippet_no_collapse (e : SemanticSearchEngine) (key : String) (n : ℕ)
    (row : JoinedRow) (d : List Char)
    (hrow : e.joined.find? (fun r => r.key == key) = some row)
    (hd : row.description = some d) (hne : d ≠ []) :
    e._get_snippet key n = d.take n ++ (if n < d.length then ellipsisMarker else []) ∧
    (d.length ≤ n → e._get_snippet key n = d) ∧
    (∀ text m, snippet text m = snippet_spec text m) := by
  have hmain : e._get_snippet key n = d.take n ++ (if n < d.length then ellipsisMarker else []) := by
    unfold SemanticSearchEngine._get_snippet
    rw [hrow]
    simp [hd]
  refine ⟨hmain, ?_, fun _ _ => rfl⟩
  intro hlen
  rw [hmain, List.take_of_length_le hlen, if_neg (by omega), List.append_nil]

/-- Claim C2, counterexample: the engine returns a snippet that still
contains the internal newline of the stored description, instead of the
collapsed, trimmed text the claim describes. -/
theorem C2_counterexample :
    eC2._get_snippet "k" 600 ≠ snippet_spec ("a\nb".toList) 600 ∧
    eC2._get_snippet "k" 600 = "a\nb".toList ∧
    snippet_spec ("a\nb".toList) 600 = "a b".toList := by
  exact ⟨by decide, by decide, by decide⟩

theorem C2_witness :
    eC2._get_snippet "k" 600 = ("a\nb".toList).take 600 ++
      (if 600 < ("a\nb".toList).length then ellipsisMarker else []) :=
  (C2_snippet_no_collapse eC2 "k" 600 ⟨"k", some "a\nb".toList⟩ ("a\nb".toList)
    (by decide) rfl (by decide)).1

/-- Claim C4: `search_by_key` on a key absent from the Metadata Table raises
`ValueError("Key not found: ...")`; it never returns a result list. -/
theorem C4_absent_key_raises (e : SemanticSearchEngine) (key : String) (topk : ℕ)
    (habs : ∀ r ∈ e.meta, r.key ≠ key) :
    e.search_by_key key topk = .error ("Key not found: " ++ key) := by
  have h : ¬ key ∈ e.meta.map MetaRow.key := by
    simp only [List.mem_map]
    rintro ⟨r, hr, rfl⟩
    exact habs r hr rfl
  unfold SemanticSearchEngine.search_by_key
  rw [if_pos h]

theorem C4_witness : eT.search_by_key "Z" 5 = .error ("Key not found: " ++ "Z") :=
  C4_absent_key_raises eT "Z" 5 (by decide)

/-- Claim C1: for a built index of `ntotal` vectors whose search honours the
collaborator contract on this query (it reports `min(topk, ntotal)` pairs,
every row position in range, scores in descending order), `search_by_text`
returns exactly `min(topk, ntotal)` results, carries the index's scores in
the reported descending order, and every result is resolved from one of the
reported in-range row positions. -/
theorem C1_search_by_text_contract (e : SemanticSearchEngine) (q : String) (topk : ℕ)
    (htopk : 1 ≤ topk)
    (hlen : (e.index.search (e.embed q) topk).length = min topk e.index.ntotal)
    (hpos : ∀ p ∈ e.index.search (e.embed q) topk, p.2 < e.index.ntotal)
    (hsort : List.Chain' (fun a b => b ≤ a) ((e.index.search (e.embed q) topk).map Prod.fst)) :
    (e.search_by_text q topk).length = min topk e.index.ntotal ∧
    (e.search_by_text q topk).map TextSearchResult.score =
      (e.index.search (e.embed q) topk).map Prod.fst ∧
    List.Chain' (fun a b => b ≤ a) ((e.search_by_text q topk).map TextSearchResult.score) ∧
    (∀ r ∈ e.search_by_text q topk,
      ∃ p ∈ e.index.search (e.embed q) topk, p.2 < e.index.ntotal ∧ r = mkTextResult e p) := by
  have hscores : (e.search_by_text q topk).map TextSearchResult.score =
      (e.index.search (e.embed q) topk).map Prod.fst := by
    unfold SemanticSearchEngine.search_by_text
    rw [List.map_map]
    rfl
  refine ⟨?_, hscores, ?_, ?_⟩
  · unfold SemanticSearchEngine.search_by_text
    rw [List.length_map, hlen]
  · rw [hscores]; exact hsort
  · intro r hr
    unfold SemanticSearchEngine.search_by_text at hr
    obtain ⟨p, hp, rfl⟩ := List.mem_map.mp hr
    exact ⟨p, hp, hpos p hp, rfl⟩

theorem C1_witness :
    (eT.search_by_text "q" 2).length = min 2 eT.index.ntotal ∧
    List.Chain' (fun a b => b ≤ a) ((eT.search_by_text "q" 2).map TextSearchResult.score) :=
  ⟨(C1_search_by_text_contract eT "q" 2 (by decide) (by decide) (by decide)
      (by simp [eT, List.chain'_cons]; norm_num)).1,
   (C1_search_by_text_contract eT "q" 2 (by decide) (by decide) (by decide)
      (by simp [eT, List.chain'_cons]; norm_num)).2.2.1⟩

/-- Claim C3: for a key present in the Metadata Table (with at least
`topk + 1` indexed items), no result of `search_by_key` carries a `book_id`
equal to the seed key: the post-filter drops every matching row. -/
theorem C3_self_exclusion (e : SemanticSearchEngine) (key : String) (topk : ℕ)
    (hk : key ∈ e.meta.map MetaRow.key) (hN : topk + 1 ≤ e.index.ntotal)
    (rs : List KeySearchResult) (hrs : e.search_by_key key topk = .ok rs) :
    ∀ r ∈ rs, r.book_id ≠ key := by
  intro r hr
  unfold SemanticSearchEngine.search_by_key at hrs
  rw [if_neg (not_not_intro hk)] at hrs
  obtain rfl : _ = rs := by simpa using hrs
  have hr' := List.take_subset _ _ hr
  obtain ⟨p, hp, hfp⟩ := List.mem_filterMap.mp hr'
  simp only [mkKeyResult] at hfp
  split at hfp
  · exact absurd hfp (by simp)
  · rename_i hne
    obtain rfl : _ = r := by simpa using hfp
    simpa using hne

theorem C3_witness :
    (eT.search_by_key "B" 1 = .ok [⟨"A", "Book A", 3, "Alpha".toList⟩]) ∧
    (⟨"A", "Book A", 3, "Alpha".toList⟩ : KeySearchResult).book_id ≠ "B" :=
  ⟨by decide,
   C3_self_exclusion eT "B" 1 (by decide) (by decide)
     [⟨"A", "Book A", 3, "Alpha".toList⟩] (by decide) _ (by simp)⟩

/-- Claim C5: `search_by_key` never consults the embedding function (its
result is invariant under replacing it); it truncates to at most `topk`
results; and when the index reports `topk + 1` neighbour pairs, none of
which resolves to the seed key, it returns exactly `topk` results.  The
query vector is the reconstruction of the first row position whose key
matches, which is where the third conjunct's hypotheses read it. -/
theorem C5_reconstruct_search (e : SemanticSearchEngine) (key : String) (topk : ℕ)
    (hk : key ∈ e.meta.map MetaRow.key) :
    (∀ f, (withEmbed e f).search_by_key key topk = e.search_by_key key topk) ∧
    (∀ rs, e.search_by_key key topk = .ok rs → rs.length ≤ topk) ∧
    ((e.index.search (e.index.reconstruct (e.meta.findIdx fun r => r.key == key))
        (topk + 1)).length = topk + 1 →
     (∀ p ∈ e.index.search (e.index.reconstruct (e.meta.findIdx fun r => r.key == key))
        (topk + 1), (e.meta.getD p.2 mrowDefault).key ≠ key) →
     ∀ rs, e.search_by_key key topk = .ok rs → rs.length = topk) := by
  refine ⟨fun f => rfl, ?_, ?_⟩
  · intro rs hrs
    unfold SemanticSearchEngine.search_by_key at hrs
    rw [if_neg (not_not_intro hk)] at hrs
    obtain rfl : _ = rs := by simpa using hrs
    exact List.length_take_le _ _
  · intro hlen habs rs hrs
    unfold SemanticSearchEngine.search_by_key at hrs
    rw [if_neg (not_not_intro hk)] at hrs
    obtain rfl : _ = rs := by simpa using hrs
    have hsome : ∀ p ∈ e.index.search
        (e.index.reconstruct (e.meta.findIdx fun r => r.key == key)) (topk + 1),
        ((mkKeyResult e key) p).isSome := by
      intro p hp
      simp only [mkKeyResult]
      rw [if_neg (by simpa using habs p hp)]
      simp
    rw [List.length_take, length_filterMap_of_isSome _ _ hsome, hlen]
    omega

theorem C5_witness :
    ((withEmbed eNS fun _ => [(5 : ℚ)]).search_by_key "A" 2 = eNS.search_by_key "A" 2) ∧
    (eNS.search_by_key "A" 2 = .ok [⟨"B", "Book B", 2, []⟩, ⟨"C", "Book C", 1, []⟩]) ∧
    ([(⟨"B", "Book B", 2, []⟩ : KeySearchResult), ⟨"C", "Book C", 1, []⟩].length = 2) :=
  ⟨(C5_reconstruct_search eNS "A" 2 (by decide)).1 _,
   by decide,
   (C5_reconstruct_search eNS "A" 2 (by decide)).2.2 (by decide) (by decide) _ (by decide)⟩

/-- A sum of squares is nonnegative. -/
theorem sumSq_nonneg (v : List ℝ) : 0 ≤ sumSq v := by
  unfold sumSq
  induction v with
  | nil => simp
  | cons x t ih =>
    simp only [List.map_cons, List.sum_cons]
    exact add_nonneg (mul_self_nonneg x) ih

/-- Dividing every entry by `c` divides the sum of squares by `c * c`. -/
theorem sumSq_map_div (v : List ℝ) (c : ℝ) :
    sumSq (v.map (fun x => x / c)) = sumSq v / (c * c) := by
  unfold sumSq
  induction v with
  | nil => simp
  | cons x t ih =>
    simp only [List.map_cons, List.sum_cons]
    rw [ih, div_mul_div_comm, div_add_div_same]

/-- Claim C7: the defensive normalization divides a vector by its L2 norm,
producing a vector of L2 norm exactly 1 (exact reals standing in for "1.0
within floating tolerance"), except that a vector of zero norm is returned
unchanged, so no division by zero occurs. -/
theorem C7_defensive_normalize (v : List ℝ) :
    (l2norm v ≠ 0 → l2norm (defensiveNormalize v) = 1) ∧
    (l2norm v = 0 → defensiveNormalize v = v) := by
  constructor
  · intro h
    unfold defensiveNormalize
    rw [if_pos h]
    unfold l2norm at h ⊢
    rw [sumSq_map_div, Real.mul_self_sqrt (sumSq_nonneg v),
      div_self (fun h0 => h (by rw [h0, Real.sqrt_zero])), Real.sqrt_one]
  · intro h
    unfold defensiveNormalize
    rw [if_neg (fun hn => hn h)]

theorem C7_witness : l2norm (defensiveNormalize [(3 : ℝ), 4]) = 1 :=
  (C7_defensive_normalize [3, 4]).1 (by
    unfold l2norm
    have h25 : sumSq [(3 : ℝ), 4] = 25 := by unfold sumSq; norm_num
    rw [h25]
    exact ne_of_gt (Real.sqrt_pos.mpr (by norm_num)))

/-- One completed `_get_model` call preserves the cache invariant. -/
theorem getModel_inv (s : ModelCache) (m' : String) (h : CacheInv s) :
    CacheInv (_get_model s m') := by
  unfold _get_model
  split
  · exact h
  · rename_i hc
    intro m
    rcases h m with ⟨h1, h2⟩
    by_cases hm : m = m'
    · subst hm
      refine ⟨?_, ?_⟩
      · simp [List.count_append, h2 hc]
      · intro hnc
        simp at hnc
    · refine ⟨?_, ?_⟩
      · have hc1 : List.count m [m'] = 0 := by simp [List.count_cons, hm]
        simpa [List.count_append, hc1] using h1
      · intro hnc
        have hmc : m ∉ s.cache := fun hin => hnc (List.mem_cons_of_mem _ hin)
        have hc1 : List.count m [m'] = 0 := by simp [List.count_cons, hm]
        simp [List.count_append, hc1, h2 hmc]

/-- Folding any call history over `_get_model` preserves the invariant. -/
theorem foldl_cacheInv : ∀ (ms : List String) (s : ModelCache),
    CacheInv s → CacheInv (ms.foldl _get_model s)
  | [], _, h => h
  | m :: ms, s, h => foldl_cacheInv ms _ (getModel_inv s m h)

/-- Claim C8, amended: across any *sequential* sequence of engine
constructions and queries, `_get_model` loads each model identifier at most
once (the dict memoization).  The unguarded check-then-insert gives no such
guarantee under concurrent threads (see the counterexample). -/
theorem C8_sequential_single_load (ms : List String) (m : String) :
    (runCalls ms).loadEvents.count m ≤ 1 := by
  have h : CacheInv (runCalls ms) :=
    foldl_cacheInv ms initCache (fun m' => by simp [initCache])
  exact (h m).1

/-- Claim C8, counterexample: two threads calling `_get_model` with the same
identifier can both pass the membership test before either stores, so the
model is loaded twice — the claimed exactly-once initialization under
concurrent query threads fails. -/
theorem C8_counterexample :
    ¬ ((runSched "all-MiniLM-L6-v2" [0, 1, 0, 1]).loadEvents.count "all-MiniLM-L6-v2" ≤ 1) := by
  decide

/-- Claim C9: when the Metadata Table holds the same key at more than one
row position, `search_by_key` reads its seed vector only at the first
matching row position (the reconstruction function matters nowhere else, and
that position is at or before any duplicate), excludes every result row
whose key equals the seed key, and can therefore return fewer than `topk`
results, as `eDup` shows concretely. -/
theorem C9_duplicate_keys (e : SemanticSearchEngine) (key : String) (topk : ℕ)
    (i j : ℕ) (hij : i < j) (hj : j < e.meta.length)
    (hki : (e.meta.getD i mrowDefault).key = key)
    (hkj : (e.meta.getD j mrowDefault).key = key) :
    (e.meta.findIdx (fun r => r.key == key) ≤ i) ∧
    (∀ g, g (e.meta.findIdx (fun r => r.key == key)) =
        e.index.reconstruct (e.meta.findIdx (fun r => r.key == key)) →
      (withReconstruct e g).search_by_key key topk = e.search_by_key key topk) ∧
    (∀ rs, e.search_by_key key topk = .ok rs → ∀ r ∈ rs, r.book_id ≠ key) ∧
    (eDup.search_by_key "A" 2 = .ok rsDup ∧ rsDup.length < 2) := by
  refine ⟨?_, ?_, ?_, by decide, by decide⟩
  · exact findIdx_le_of_getD _ mrowDefault e.meta i (lt_trans hij hj) (by simpa using hki)
  · intro g hg
    simp only [SemanticSearchEngine.search_by_key, withReconstruct]
    rw [hg]
    rfl
  · intro rs hrs r hr
    unfold SemanticSearchEngine.search_by_key at hrs
    split at hrs
    · exact absurd hrs (by simp)
    · obtain rfl : _ = rs := by simpa using hrs
      have hr' := List.take_subset _ _ hr
      obtain ⟨p, hp, hfp⟩ := List.mem_filterMap.mp hr'
      simp only [mkKeyResult] at hfp
      split at hfp
      · exact absurd hfp (by simp)
      · rename_i hne
        obtain rfl : _ = r := by simpa using hfp
        simpa using hne

theorem C9_witness :
    (eDup.meta.findIdx (fun r => r.key == "A") ≤ 0) ∧ rsDup.length < 2 :=
  ⟨(C9_duplicate_keys eDup "A" 2 0 1 (by decide) (by decide) (by decide) (by decide)).1,
   (C9_duplicate_keys eDup "A" 2 0 1 (by decide) (by decide) (by decide) (by decide)).2.2.2.2⟩
